import Mathlib

/-!
# Verification of the `mcping` Minecraft server-ping library

Shallow embedding of the protocol core of the `mcping` crate
(`src/mcping/src/java.rs`, `src/mcping/src/bedrock.rs`, error type from
`src/mcping/src/lib.rs`) together with proofs about the embedded code.

Modelling conventions:
* Rust `u8` wire bytes are `Nat` (a well-formedness bound `< 256` is carried
  as a hypothesis where it matters).
* Rust `i32` values are represented by their unsigned 32-bit two's-complement
  representative (`Nat < 2^32`); `toI32` recovers the signed value.
* Byte streams (`TcpStream` reads, `Cursor` contents) are `List Nat`,
  consumed from the front.
* Rust `String` contents are `List Char`; UTF-8 decoding of wire bytes is
  embedded explicitly (`utf8Decode`), matching `String::from_utf8`.
* `io::Error` values are identified by their message string; the library
  error enum `Error` from `lib.rs` is `McError`.
* A Rust panic (`expect`) is a distinguished `panic` outcome, not an error
  value.
-/

namespace Mcping

/-- The library error enum `Error` from `src/mcping/src/lib.rs`:
`InvalidPacket`, `IoError(io::Error)` (identified by its message),
`JsonErr`, `InvalidAddress`, `DnsLookupFailed`. -/
inductive McError where
  | invalidPacket : McError
  | ioError : String → McError
  | jsonErr : McError
  | invalidAddress : McError
  | dnsLookupFailed : McError
deriving Repr, DecidableEq

/-- Outcome of a reader operation on a byte stream: success (with the
remaining stream), an `io::Error` (by message), or a Rust panic. -/
inductive RResult (α : Type) where
  | ok : α → List Nat → RResult α
  | ioErr : String → RResult α
  | panic : String → RResult α
deriving Repr, DecidableEq

/-- The `io::ErrorKind::UnexpectedEof` error message produced by
`Read::read_exact` when the source runs out of bytes. -/
def eofMsg : String := "failed to fill whole buffer"

/-- The message of the oversize-VarInt error in `read_varint`/`write_varint`
(`io::Error::new(io::ErrorKind::Other, "VarInt too big!")`). -/
def varIntTooBigMsg : String := "VarInt too big!"

/-- `Read::read_u8`: take one byte off the stream. -/
def readU8 : List Nat → RResult Nat
  | [] => .ioErr eofMsg
  | b :: rest => .ok b rest

/-- `Read::read_exact` into a buffer of length `n`: succeeds with the first
`n` bytes iff the stream holds at least `n` bytes, otherwise fails with
`UnexpectedEof`. -/
def readExact (n : Nat) (s : List Nat) : RResult (List Nat) :=
  if n ≤ s.length then .ok (s.take n) (s.drop n) else .ioErr eofMsg

/-- Signed interpretation of an unsigned 32-bit representative. -/
def toI32 (n : Nat) : Int :=
  if n % 2 ^ 32 < 2 ^ 31 then ((n % 2 ^ 32 : Nat) : Int)
  else ((n % 2 ^ 32 : Nat) : Int) - 2 ^ 32

/-- The `as usize` cast of an `i32` value (sign extension to 64 bits,
then reinterpreted unsigned), acting on the signed value. -/
def i32ToUsize (v : Int) : Nat := ((v % (2 ^ 64 : Int)).toNat)

/-- Loop body of `ReadJavaExt::read_varint` (`java.rs`): `for i in 0..5`,
accumulating `res |= (part as i32 & 0x7F) << (7 * i)` (32-bit wrapping) and
stopping when the continuation bit `0x80` is clear.  `fuel` is the number
of remaining iterations (`5 - i`). -/
def readVarintLoop : Nat → Nat → Nat → List Nat → RResult Int
  | 0, _, _, _ => .ioErr varIntTooBigMsg
  | fuel + 1, i, res, s =>
    match readU8 s with
    | .ioErr m => .ioErr m
    | .panic m => .panic m
    | .ok part rest =>
      let res' := res ||| ((part &&& 0x7F) <<< (7 * i)) % 2 ^ 32
      if part &&& 0x80 = 0 then .ok (toI32 res') rest
      else readVarintLoop fuel (i + 1) res' rest

/-- `ReadJavaExt::read_varint` from `src/mcping/src/java.rs`. -/
def readVarint (s : List Nat) : RResult Int := readVarintLoop 5 0 0 s

/-- 32-bit arithmetic shift right by 7 (`val >>= 7` on `i32`), on the
unsigned representative: logical shift plus sign extension of the top
7 bits. -/
def asr7 (r : Nat) : Nat :=
  if r < 2 ^ 31 then r >>> 7 else (r >>> 7) ||| (2 ^ 32 - 2 ^ 25)

/-- Loop body of `WriteJavaExt::write_varint` (`java.rs`): `for _ in 0..5`,
emitting `(val & 0x7F | 0x80) as u8` and arithmetic-shifting while bits
outside the low 7 remain (`val & !0x7F != 0`); the final byte is
`val as u8`.  The value is carried as its unsigned 32-bit representative. -/
def writeVarintLoop : Nat → Nat → Except String (List Nat)
  | 0, _ => .error varIntTooBigMsg
  | fuel + 1, val =>
    if val &&& 0xFFFFFF80 = 0 then .ok [val % 256]
    else
      (writeVarintLoop fuel (asr7 val)).map
        (fun rest => (((val &&& 0x7F) ||| 0x80) % 256) :: rest)

/-- `WriteJavaExt::write_varint` from `src/mcping/src/java.rs`, on the
unsigned 32-bit representative of the `i32` argument. -/
def writeVarint (val : Nat) : Except String (List Nat) := writeVarintLoop 5 val

/-- Strict UTF-8 decoding of a byte list (the validation performed by
`String::from_utf8`, per RFC 3629: no overlong forms, no surrogates, max
scalar `U+10FFFF`), yielding the decoded characters. -/
def utf8Decode : List Nat → Option (List Char)
  | [] => some []
  | b :: rest =>
    if b < 0x80 then (utf8Decode rest).map (fun cs => Char.ofNat b :: cs)
    else if b < 0xC2 then none
    else if b < 0xE0 then
      match rest with
      | b1 :: rest1 =>
        if 0x80 ≤ b1 ∧ b1 < 0xC0 then
          (utf8Decode rest1).map
            (fun cs => Char.ofNat ((b - 0xC0) * 64 + (b1 - 0x80)) :: cs)
        else none
      | [] => none
    else if b < 0xF0 then
      match rest with
      | b1 :: b2 :: rest2 =>
        if (if b = 0xE0 then 0xA0 ≤ b1 ∧ b1 < 0xC0
            else if b = 0xED then 0x80 ≤ b1 ∧ b1 < 0xA0
            else 0x80 ≤ b1 ∧ b1 < 0xC0) ∧ 0x80 ≤ b2 ∧ b2 < 0xC0 then
          (utf8Decode rest2).map
            (fun cs =>
              Char.ofNat ((b - 0xE0) * 4096 + (b1 - 0x80) * 64 + (b2 - 0x80)) :: cs)
        else none
      | _ => none
    else if b < 0xF5 then
      match rest with
      | b1 :: b2 :: b3 :: rest3 =>
        if (if b = 0xF0 then 0x90 ≤ b1 ∧ b1 < 0xC0
            else if b = 0xF4 then 0x80 ≤ b1 ∧ b1 < 0x90
            else 0x80 ≤ b1 ∧ b1 < 0xC0) ∧
            0x80 ≤ b2 ∧ b2 < 0xC0 ∧ 0x80 ≤ b3 ∧ b3 < 0xC0 then
          (utf8Decode rest3).map
            (fun cs =>
              Char.ofNat ((b - 0xF0) * 262144 + (b1 - 0x80) * 4096 +
                (b2 - 0x80) * 64 + (b3 - 0x80)) :: cs)
        else none
      | _ => none
    else none

/-- `ReadJavaExt::read_string` from `src/mcping/src/java.rs`: a VarInt
length (cast `as usize` with sign extension), then `vec![0; len]` — which
PANICS with "capacity overflow" when the count exceeds `isize::MAX`
(`2^63 - 1`), as every sign-extended negative length does; allocations
within `isize::MAX` are modelled as succeeding — then `read_exact` into
the buffer, then `String::from_utf8(buf).expect("Invalid UTF-8 String.")`
— invalid UTF-8 therefore PANICS instead of returning an error. -/
def readStringJ (s : List Nat) : RResult (List Char) :=
  match readVarint s with
  | .ioErr m => .ioErr m
  | .panic m => .panic m
  | .ok len rest =>
    if 2 ^ 63 - 1 < i32ToUsize len then .panic "capacity overflow"
    else
      match readExact (i32ToUsize len) rest with
      | .ioErr m => .ioErr m
      | .panic m => .panic m
      | .ok buf rest' =>
        match utf8Decode buf with
        | some cs => .ok cs rest'
        | none => .panic "Invalid UTF-8 String."

/-- `byteorder` big-endian `u64` read. -/
def readU64 (s : List Nat) : RResult Nat :=
  match readExact 8 s with
  | .ioErr m => .ioErr m
  | .panic m => .panic m
  | .ok buf rest => .ok (buf.foldl (fun acc b => acc * 256 + b) 0) rest

/-- `byteorder` big-endian `u16` read. -/
def readU16be (s : List Nat) : RResult Nat :=
  match readExact 2 s with
  | .ioErr m => .ioErr m
  | .panic m => .panic m
  | .ok buf rest => .ok (buf.foldl (fun acc b => acc * 256 + b) 0) rest

/-- Big-endian bytes of a `u16`. -/
def u16be (n : Nat) : List Nat := [n / 256 % 256, n % 256]

/-- Big-endian bytes of a `u64` (also the encoding of a non-negative
`i64`). -/
def u64be (n : Nat) : List Nat :=
  [n / 2 ^ 56 % 256, n / 2 ^ 48 % 256, n / 2 ^ 40 % 256, n / 2 ^ 32 % 256,
   n / 2 ^ 24 % 256, n / 2 ^ 16 % 256, n / 2 ^ 8 % 256, n % 256]

/-- `WriteJavaExt::write_string`: the byte length as a VarInt (cast
`as i32`, i.e. reduced to its 32-bit representative), then the raw bytes.
Strings on the wire are represented by their UTF-8 bytes. -/
def writeString (s : List Nat) : Except String (List Nat) :=
  (writeVarint (s.length % 2 ^ 32)).map (fun pre => pre ++ s)

/-- The Java `Packet` enum of `src/mcping/src/java.rs`.  The handshake
`host` is carried as its UTF-8 bytes; `version`/`next_state` are 32-bit
representatives of the `i32` fields. -/
inductive Packet where
  | handshake (version : Nat) (host : List Nat) (port : Nat) (next_state : Nat)
  | response (response : List Char)
  | pong (payload : Nat)
  | request
  | ping (payload : Nat)
deriving Repr, DecidableEq

/-- Outcome of `Connection::read_packet`: a packet plus the remaining TCP
stream, a library error, or a panic. -/
inductive PResult (α : Type) where
  | ok : α → List Nat → PResult α
  | err : McError → PResult α
  | panic : String → PResult α
deriving Repr, DecidableEq

/-- The packet-body serialization of `Connection::send_packet`
(`java.rs`): ID then fields for `Handshake`/`Request`/`Ping`; any other
packet is rejected with `Error::InvalidPacket`.  An `io::Error` from a
varint write becomes `Error::IoError` through the `?` operator. -/
def encodePacket : Packet → Except McError (List Nat)
  | .handshake version host port next_state =>
    match writeVarint 0x00 with
    | .error m => .error (.ioError m)
    | .ok b0 =>
      match writeVarint version with
      | .error m => .error (.ioError m)
      | .ok b1 =>
        match writeString host with
        | .error m => .error (.ioError m)
        | .ok b2 =>
          match writeVarint next_state with
          | .error m => .error (.ioError m)
          | .ok b3 => .ok (b0 ++ b1 ++ b2 ++ u16be port ++ b3)
  | .request =>
    match writeVarint 0x00 with
    | .error m => .error (.ioError m)
    | .ok b0 => .ok b0
  | .ping payload =>
    match writeVarint 0x01 with
    | .error m => .error (.ioError m)
    | .ok b0 => .ok (b0 ++ u64be payload)
  | _ => .error .invalidPacket

/-- The full frame written by `Connection::send_packet`: the body length
(`buf.len() as i32`) as a VarInt, then the body. -/
def framePacket (p : Packet) : Except McError (List Nat) :=
  match encodePacket p with
  | .error e => .error e
  | .ok buf =>
    match writeVarint (buf.length % 2 ^ 32) with
    | .error m => .error (.ioError m)
    | .ok lenB => .ok (lenB ++ buf)

/-- `Connection::read_packet` (`java.rs`): read a VarInt frame length, cast
it `as usize` (sign extension for negative values), allocate the buffer
`vec![0; len]` — which PANICS with "capacity overflow" when the count
exceeds `isize::MAX` (`2^63 - 1`), as every sign-extended negative length
does; allocations within `isize::MAX` are modelled as succeeding — then
`read_exact` that many bytes into it, then parse `VarInt packet_id` from a
cursor over the buffer: `0x00` is `Response` (length-prefixed string),
`0x01` is `Pong` (big-endian `u64`), anything else is
`Error::InvalidPacket`. -/
def readPacket (s : List Nat) : PResult Packet :=
  match readVarint s with
  | .ioErr m => .err (.ioError m)
  | .panic m => .panic m
  | .ok len s1 =>
    if 2 ^ 63 - 1 < i32ToUsize len then .panic "capacity overflow"
    else
    match readExact (i32ToUsize len) s1 with
    | .ioErr m => .err (.ioError m)
    | .panic m => .panic m
    | .ok buf s2 =>
      match readVarint buf with
      | .ioErr m => .err (.ioError m)
      | .panic m => .panic m
      | .ok pid c1 =>
        if pid = 0x00 then
          match readStringJ c1 with
          | .ioErr m => .err (.ioError m)
          | .panic m => .panic m
          | .ok resp _ => .ok (.response resp) s2
        else if pid = 0x01 then
          match readU64 c1 with
          | .ioErr m => .err (.ioError m)
          | .panic m => .panic m
          | .ok payload _ => .ok (.pong payload) s2
        else .err .invalidPacket

/-- Observable events of a Java ping call, in program order: a packet
write (with its exact frame bytes), an `Instant::now()` observation
(nanoseconds), or the start of a `read_packet`. -/
inductive JEvent where
  | send (bytes : List Nat)
  | now (t : Nat)
  | recv
deriving Repr, DecidableEq

/-- Whether an event is a clock observation. -/
def JEvent.isNow : JEvent → Bool
  | .now _ => true
  | _ => false

/-- Whether an event is a packet write. -/
def JEvent.isSend : JEvent → Bool
  | .send _ => true
  | _ => false

/-- Environment of a Java ping call: the incoming TCP byte stream, the
monotonic clock (value of the k-th `Instant::now()` call, nanoseconds),
the process random source (`rand::random::<u64>()`), and the external
`serde_json` parser as an oracle (whether the status document parses). -/
structure JEnv where
  stream : List Nat
  clock : Nat → Nat
  rand : Nat
  json : List Char → Bool

/-- Result of a whole ping call. -/
inductive CallRes (α : Type) where
  | ok : α → CallRes α
  | err : McError → CallRes α
  | panic : String → CallRes α
deriving Repr, DecidableEq

/-- `impl Pingable for Java`, `fn ping` (`java.rs`, lines 53-85), after the
connection is established: send `Handshake{47, host, port, 1}`, send
`Request`, read a packet (must be `Response`, JSON-parsed), send
`Ping{rand}`, capture `before = Instant::now()`, read a packet (must be
`Pong` with the same payload), capture `Instant::now()` again and report
`(now - before).as_millis() as u64`.  Returns the reported latency and the
trace of observable events in program order. -/
def javaPing (host : List Nat) (port : Nat) (env : JEnv) :
    CallRes Nat × List JEvent :=
  match framePacket (.handshake 47 host port 1) with
  | .error e => (.err e, [])
  | .ok hsB =>
    match framePacket .request with
    | .error e => (.err e, [.send hsB])
    | .ok reqB =>
      match readPacket env.stream with
      | .err e => (.err e, [.send hsB, .send reqB, .recv])
      | .panic m => (.panic m, [.send hsB, .send reqB, .recv])
      | .ok p s1 =>
        match p with
        | .response resp =>
          if env.json resp then
            match framePacket (.ping env.rand) with
            | .error e => (.err e, [.send hsB, .send reqB, .recv])
            | .ok pingB =>
              let t0 := env.clock 0
              match readPacket s1 with
              | .err e =>
                (.err e,
                 [.send hsB, .send reqB, .recv, .send pingB, .now t0, .recv])
              | .panic m =>
                (.panic m,
                 [.send hsB, .send reqB, .recv, .send pingB, .now t0, .recv])
              | .ok q _ =>
                match q with
                | .pong payload =>
                  if payload = env.rand then
                    let t1 := env.clock 1
                    (.ok (((t1 - t0) / 1000000) % 2 ^ 64),
                     [.send hsB, .send reqB, .recv, .send pingB, .now t0,
                      .recv, .now t1])
                  else
                    (.err .invalidPacket,
                     [.send hsB, .send reqB, .recv, .send pingB, .now t0,
                      .recv])
                | _ =>
                  (.err .invalidPacket,
                   [.send hsB, .send reqB, .recv, .send pingB, .now t0,
                    .recv])
          else (.err .jsonErr, [.send hsB, .send reqB, .recv])
        | _ => (.err .invalidPacket, [.send hsB, .send reqB, .recv])

/-- Rust `str::split(sep)`: split a character list on every occurrence of
`sep`; `n` separators yield `n + 1` (possibly empty) fields, and the empty
input yields one empty field. -/
def splitOnChar (sep : Char) : List Char → List (List Char)
  | [] => [[]]
  | c :: rest =>
    let r := splitOnChar sep rest
    if c = sep then [] :: r
    else
      match r with
      | h :: t => (c :: h) :: t
      | [] => [[c]]

/-- All-decimal-digit character runs as a number (`none` if empty or any
non-digit). -/
def digitsToNat? (cs : List Char) : Option Nat :=
  if cs = [] then none
  else if cs.all (fun c => c.isDigit) then
    some (cs.foldl (fun acc c => acc * 10 + (c.toNat - 48)) 0)
  else none

/-- Rust `str::parse::<u16>`: optional `+` sign, decimal digits, value below
`2^16`; anything else (including `-`) fails. -/
def parseU16 (s : List Char) : Option Nat :=
  match s with
  | '+' :: rest => (digitsToNat? rest).bind (fun n => if n < 2 ^ 16 then some n else none)
  | _ => (digitsToNat? s).bind (fun n => if n < 2 ^ 16 then some n else none)

/-- Rust `str::parse::<i64>`: optional sign, decimal digits, value within
the `i64` range. -/
def parseI64 (s : List Char) : Option Int :=
  match s with
  | '-' :: rest =>
    (digitsToNat? rest).bind (fun n => if n ≤ 2 ^ 63 then some (-(n : Int)) else none)
  | '+' :: rest =>
    (digitsToNat? rest).bind (fun n => if n < 2 ^ 63 then some ((n : Int)) else none)
  | _ =>
    (digitsToNat? s).bind (fun n => if n < 2 ^ 63 then some ((n : Int)) else none)

/-- The `server_address` parsing shared by `Connection::new` in
`java.rs` (lines 232-245, default port 25565) and `bedrock.rs`
(lines 266-274, default port 19132): `address.split(':')`, first field is
the host, second field (if present) is parsed as a base-10 `u16` port
(failure is `Error::InvalidAddress`), a missing second field uses
`defaultPort`; any further fields are never consumed. -/
def parseAddress (defaultPort : Nat) (address : List Char) :
    Except McError (List Char × Nat) :=
  let parts := splitOnChar ':' address
  match parts.head? with
  | none => .error .invalidAddress
  | some host =>
    match parts[1]? with
    | some p =>
      match parseU16 p with
      | some port => .ok (host, port)
      | none => .error .invalidAddress
    | none => .ok (host, defaultPort)

/-- Java default port (`java.rs` line 244). -/
def javaDefaultPort : Nat := 25565

/-- Bedrock default port (`bedrock.rs` `DEFAULT_PORT`). -/
def bedrockDefaultPort : Nat := 19132

/-- The `BedrockEdition` enum of `bedrock.rs`. -/
inductive BedrockEdition where
  | pocketEdition
  | educationEdition
  | other (s : List Char)
deriving Repr, DecidableEq

/-- `impl From<String> for BedrockEdition`: case-insensitive match of the
edition token (`to_lowercase`, ASCII range). -/
def editionFrom (s : List Char) : BedrockEdition :=
  let ls := s.map Char.toLower
  if ls = ['m', 'c', 'p', 'e'] then .pocketEdition
  else if ls = ['m', 'c', 'e', 'e'] then .educationEdition
  else .other s

/-- The `BedrockResponse` record of `bedrock.rs` (strings as character
lists). -/
structure BedrockResponse where
  edition : BedrockEdition
  motd_1 : List Char
  protocol_version : Option Int
  version_name : List Char
  players_online : Option Int
  players_max : Option Int
  server_id : Option Int
  motd_2 : Option (List Char)
  game_mode : Option (List Char)
  game_mode_id : Option Int
  port_v4 : Option Nat
  port_v6 : Option Nat
deriving Repr, DecidableEq

/-- `BedrockResponse::extract` (`bedrock.rs`, lines 208-225): split the
payload on `;` and consume the fields positionally.  The first four
iterator calls use `?` (so `edition`, `motd_1`, the `protocol_version`
slot and `version_name` must be PRESENT); later integer fields use
`and_then(parse().ok())` so absence or parse failure yields `None`. -/
def extract (payload : List Char) : Option BedrockResponse := do
  let parts := splitOnChar ';' payload
  let edition ← parts[0]?
  let motd1 ← parts[1]?
  let protocolVersion ← (parts[2]?).map parseI64
  let versionName ← parts[3]?
  some {
    edition := editionFrom edition
    motd_1 := motd1
    protocol_version := protocolVersion
    version_name := versionName
    players_online := (parts[4]?).bind parseI64
    players_max := (parts[5]?).bind parseI64
    server_id := (parts[6]?).bind parseI64
    motd_2 := parts[7]?
    game_mode := parts[8]?
    game_mode_id := (parts[9]?).bind parseI64
    port_v4 := (parts[10]?).bind parseU16
    port_v6 := (parts[11]?).bind parseU16
  }

/-- RakNet's `OFFLINE_MESSAGE_DATA_ID` magic (`bedrock.rs`). -/
def OFFLINE_MESSAGE_DATA_ID : List Nat :=
  [0x00, 0xff, 0xff, 0x00, 0xfe, 0xfe, 0xfe, 0xfe,
   0xfd, 0xfd, 0xfd, 0xfd, 0x12, 0x34, 0x56, 0x78]

/-- The exact bytes of `Connection::send(Packet::UnconnectedPing)`
(`bedrock.rs`, lines 293-312): packet ID `0x01`, big-endian `i64`
timestamp `0`, the 16-byte magic, big-endian `i64` client GUID `0`. -/
def unconnectedPingBytes : List Nat :=
  [0x01] ++ u64be 0 ++ OFFLINE_MESSAGE_DATA_ID ++ u64be 0

/-- `ReadBedrockExt::read_string` (`bedrock.rs`): big-endian `u16` length,
`read_exact`, and strict UTF-8 validation mapped to an `io::Error`. -/
def readStringB (s : List Nat) : RResult (List Char) :=
  match readU16be s with
  | .ioErr m => .ioErr m
  | .panic m => .panic m
  | .ok len rest =>
    match readExact len rest with
    | .ioErr m => .ioErr m
    | .panic m => .panic m
    | .ok buf rest' =>
      match utf8Decode buf with
      | some cs => .ok cs rest'
      | none => .ioErr "Invalid UTF-8 String."

/-- The Bedrock `Packet` enum of `bedrock.rs`. -/
inductive BPacket where
  | unconnectedPing
  | unconnectedPong (time : Nat) (server_id : Nat) (payload : List Char)
deriving Repr, DecidableEq

/-- The 1024-byte receive buffer of `Connection::read` (`bedrock.rs`):
`vec![0; 1024]` filled by `recv` — the datagram is truncated to 1024
bytes and the rest of the buffer keeps its zero fill (the received size is
ignored by the code). -/
def recvBuffer (d : List Nat) : List Nat :=
  d.take 1024 ++ List.replicate (1024 - d.length) 0

/-- `Connection::read` (`bedrock.rs`, lines 314-349) applied to a received
datagram: parse the 1024-byte buffer as `0x1C`, `u64` time, `u64` server
GUID, 16-byte magic (mismatch is an `io::Error`), then the length-prefixed
payload string; any other first byte is the `io::Error`
`"Invalid S -> C Packet"`. -/
def bedrockRead (d : List Nat) : Except String BPacket :=
  let buf := recvBuffer d
  match readU8 buf with
  | .ioErr m => .error m
  | .panic m => .error m
  | .ok b rest =>
    if b = 0x1C then
      match readU64 rest with
      | .ioErr m => .error m
      | .panic m => .error m
      | .ok time rest1 =>
        match readU64 rest1 with
        | .ioErr m => .error m
        | .panic m => .error m
        | .ok serverId rest2 =>
          match readExact 16 rest2 with
          | .ioErr m => .error m
          | .panic m => .error m
          | .ok tmp rest3 =>
            if tmp ≠ OFFLINE_MESSAGE_DATA_ID then
              .error "incorrect offline message data ID received"
            else
              match readStringB rest3 with
              | .ioErr m => .error m
              | .panic m => .error m
              | .ok payload _ => .ok (.unconnectedPong time serverId payload)
    else .error "Invalid S -> C Packet"

/-- The receive half of `impl Pingable for Bedrock`, `fn ping`
(`bedrock.rs`, lines 100-119): `connection.read()?` (an `io::Error` becomes
`Error::IoError`), then `BedrockResponse::extract` — an unparseable payload
is `Error::IoError("Invalid Payload")` and a non-pong packet is
`Error::IoError("Invalid Packet Response")`. -/
def bedrockHandle (d : List Nat) : Except McError BedrockResponse :=
  match bedrockRead d with
  | .error m => .error (.ioError m)
  | .ok p =>
    match p with
    | .unconnectedPong _ _ payload =>
      match extract payload with
      | some r => .ok r
      | none => .error (.ioError "Invalid Payload")
    | _ => .error (.ioError "Invalid Packet Response")

/-- Observable events of a Bedrock ping call. -/
inductive BEvent where
  | send (bytes : List Nat)
  | sleep (d : Nat)
  | now (t : Nat)
  | recvStart
deriving Repr, DecidableEq

/-- Whether a Bedrock event is a packet send. -/
def BEvent.isSend : BEvent → Bool
  | .send _ => true
  | _ => false

/-- Whether a Bedrock event is the receive. -/
def BEvent.isRecv : BEvent → Bool
  | .recvStart => true
  | _ => false

/-- The send loop of `Bedrock::ping` (`bedrock.rs`, lines 92-98): `tries`
iterations, each sending one `Unconnected Ping` and then sleeping
`wait_to_try` when it is set. -/
def bedrockSendLoop : Nat → Option Nat → List BEvent
  | 0, _ => []
  | n + 1, w =>
    .send unconnectedPingBytes ::
      ((match w with | some d => [.sleep d] | none => []) ++ bedrockSendLoop n w)

/-- The full event trace of `Bedrock::ping` up to the single receive: the
send loop, then `before = Instant::now()`, then one `recv`. -/
def bedrockPingTrace (tries : Nat) (wait : Option Nat) (t0 : Nat) : List BEvent :=
  bedrockSendLoop tries wait ++ [.now t0, .recvStart]

/-- An SRV record as consumed by `Connection::new`: the string form of its
target (`record.target().to_string()`) and its port. -/
structure SrvRecord where
  target : List Char
  port : Nat
deriving Repr, DecidableEq

/-- The `trust_dns_resolver::Resolver` as an oracle: `srv q` is
`srv_lookup(q).ok()` (the record list), `ips h` is `lookup_ip(h).ok()`
(the address list, addresses opaque). -/
structure Resolver where
  srv : List Char → Option (List SrvRecord)
  ips : List Char → Option (List Nat)

/-- The `lookup_ip` closure of `Connection::new` (`java.rs` line 259-260):
`resolver.lookup_ip(host).ok()?.into_iter().next()`. -/
def lookupIp (res : Resolver) (host : List Char) : Option Nat :=
  (res.ips host).bind List.head?

/-- The SRV query string `format!("_minecraft._tcp.{}.", &host)` of
`java.rs` line 263 (note the trailing dot). -/
def srvQuery (host : List Char) : List Char :=
  "_minecraft._tcp.".data ++ host ++ ".".data

/-- The DNS-resolution step of `Connection::new` (`java.rs`, lines
259-271): try the SRV record (first record, its target resolved to the
first IP, its port); on any failure fall back to resolving the host
directly and keeping the parsed port; if neither yields an IP fail with
`Error::DnsLookupFailed`. -/
def resolveJava (res : Resolver) (host : List Char) (port : Nat) :
    Except McError (Nat × Nat) :=
  match (res.srv (srvQuery host)).bind
      (fun lookup => lookup.head?.bind
        (fun record => (lookupIp res record.target).map
          (fun ip => (ip, record.port)))) with
  | some ipport => .ok ipport
  | none =>
    match lookupIp res host with
    | some ip => .ok (ip, port)
    | none => .error .dnsLookupFailed

/-- Bits of `a` below `2^k` are disjoint from bits of `b <<< k`. -/
lemma and_shiftLeft_disjoint (a b k : Nat) (h : a < 2 ^ k) : a &&& (b <<< k) = 0 := by
  apply Nat.eq_of_testBit_eq
  intro i
  simp only [Nat.testBit_and, Nat.testBit_shiftLeft, Nat.zero_testBit]
  by_cases hik : k ≤ i
  · have hbit : a.testBit i = false :=
      Nat.testBit_lt_two_pow (lt_of_lt_of_le h (Nat.pow_le_pow_right (by norm_num) hik))
    simp [hbit]
  · simp [hik]

/-- Bitwise-disjoint naturals add under `|||`. -/
lemma or_disjoint (a : Nat) : ∀ b, a &&& b = 0 → a ||| b = a + b := by
  induction a using Nat.strong_induction_on with
  | _ a ih =>
    intro b h
    rcases Nat.eq_zero_or_pos a with ha | ha
    · simp [ha]
    · have hd2 : (a / 2) &&& (b / 2) = 0 := by
        rw [← Nat.and_div_two, h]
      have ih2 := ih (a / 2) (Nat.div_lt_self ha (by norm_num)) (b / 2) hd2
      have hm : ¬(a % 2 = 1 ∧ b % 2 = 1) := by
        rintro ⟨h1, h2⟩
        have hone : (a &&& b) % 2 = 1 := Nat.and_mod_two_eq_one.mpr ⟨h1, h2⟩
        rw [h] at hone
        omega
      have key := Nat.or_mod_two_eq_one (a := a) (b := b)
      have hx2 : (a ||| b) % 2 = a % 2 + b % 2 := by
        rcases Nat.mod_two_eq_zero_or_one a with h1 | h1 <;>
          rcases Nat.mod_two_eq_zero_or_one b with h2 | h2
        · have hno : ¬((a ||| b) % 2 = 1) := by rw [key]; omega
          omega
        · have hyes : (a ||| b) % 2 = 1 := key.mpr (Or.inr h2)
          omega
        · have hyes : (a ||| b) % 2 = 1 := key.mpr (Or.inl h1)
          omega
        · exact absurd ⟨h1, h2⟩ hm
      have hdiv : (a ||| b) / 2 = a / 2 ||| b / 2 := Nat.or_div_two
      have e1 := Nat.div_add_mod (a ||| b) 2
      have e2 := Nat.div_add_mod a 2
      have e3 := Nat.div_add_mod b 2
      omega

/-- The test `val & !0x7F == 0` of `write_varint` holds exactly for values
below 128 (on 32-bit representatives). -/
lemma andNot7_eq_zero_iff (v : Nat) (hv : v < 2 ^ 32) :
    v &&& 0xFFFFFF80 = 0 ↔ v < 128 := by
  have emask : (0xFFFFFF80 : Nat) = (2 ^ 25 - 1) <<< 7 := by
    rw [Nat.shiftLeft_eq]
    norm_num
  constructor
  · intro h
    by_contra hge
    push_neg at hge
    obtain ⟨i, hi7, hbit⟩ :=
      Nat.ge_two_pow_implies_high_bit_true (n := 7) (x := v) (by omega)
    have hgei := Nat.testBit_implies_ge hbit
    have hlt : i < 32 := by
      by_contra h32
      push_neg at h32
      have : (2 : Nat) ^ 32 ≤ 2 ^ i := Nat.pow_le_pow_right (by norm_num) h32
      omega
    have hmaskbit : Nat.testBit 0xFFFFFF80 i = true := by
      rw [emask, Nat.testBit_shiftLeft]
      have h7 : (decide (i ≥ 7)) = true := by simp [hi7]
      rw [h7, Bool.true_and, Nat.testBit_two_pow_sub_one]
      simp only [decide_eq_true_eq]
      omega
    have : (v &&& 0xFFFFFF80).testBit i = true := by
      rw [Nat.testBit_and, hbit, hmaskbit]
      rfl
    rw [h] at this
    simp at this
  · intro h
    apply Nat.eq_of_testBit_eq
    intro i
    simp only [Nat.testBit_and, Nat.zero_testBit]
    by_cases h7 : i < 7
    · have hmaskbit : Nat.testBit 0xFFFFFF80 i = false := by
        rw [emask, Nat.testBit_shiftLeft]
        simp [show ¬(7 ≤ i) from by omega]
      simp [hmaskbit]
    · have h128 : v < 2 ^ 7 := by omega
      have hbit : v.testBit i = false :=
        Nat.testBit_lt_two_pow
          (lt_of_lt_of_le h128 (Nat.pow_le_pow_right (by norm_num) (by omega)))
      simp [hbit]

/-- Masking with `0x7F` is reduction modulo 128. -/
lemma and127 (v : Nat) : v &&& 0x7F = v % 128 :=
  Nat.and_pow_two_sub_one_eq_mod v 7

/-- A value with the `2^k` bit set via `|||` is nonzero. -/
lemma or_two_pow_ne_zero (a k : Nat) : a ||| 2 ^ k ≠ 0 := by
  intro h
  have := congrArg (fun n => Nat.testBit n k) h
  simp [Nat.testBit_two_pow_self] at this

/-- `toI32` is the identity on the non-negative range. -/
lemma toI32_of_lt {n : Nat} (h : n < 2 ^ 31) : toI32 n = n := by
  have h32 : n % 2 ^ 32 = n := Nat.mod_eq_of_lt (by omega)
  rw [toI32, h32, if_pos h]

/-- One write/read step for a value that fits in the low 7 bits: the writer
emits the single byte `v` and the reader finishes on it. -/
lemma varint_step_small (fuel v i res : Nat) (t : List Nat)
    (hsmall : v < 128) (hres : res < 2 ^ (7 * i))
    (hsum : res + v * 2 ^ (7 * i) < 2 ^ 31) :
    writeVarintLoop (fuel + 1) v = .ok [v] ∧
      readVarintLoop (fuel + 1) i res (v :: t) =
        .ok (toI32 (res + v * 2 ^ (7 * i))) t := by
  have hcond : v &&& 0xFFFFFF80 = 0 := (andNot7_eq_zero_iff v (by omega)).mpr hsmall
  constructor
  · simp [writeVarintLoop, hcond, Nat.mod_eq_of_lt (show v < 256 by omega)]
  · have hv127 : v &&& 0x7F = v := by
      rw [and127, Nat.mod_eq_of_lt hsmall]
    have hshift : (v <<< (7 * i)) % 2 ^ 32 = v * 2 ^ (7 * i) := by
      rw [Nat.shiftLeft_eq, Nat.mod_eq_of_lt (by omega)]
    have hcont : v &&& 0x80 = 0 := by
      have := and_shiftLeft_disjoint v 1 7 hsmall
      simpa [Nat.shiftLeft_eq] using this
    have hor : res ||| v * 2 ^ (7 * i) = res + v * 2 ^ (7 * i) := by
      apply or_disjoint
      have := and_shiftLeft_disjoint res v (7 * i) hres
      simpa [Nat.shiftLeft_eq] using this
    simp only [readVarintLoop, readU8, hv127, hshift, hcont, if_pos, hor]

/-- Joint write/read invariant for the VarInt loops of `java.rs`: writing a
value `v` that fits in `7 * (fuel + 1)` bits and reading it back at loop
index `i` with accumulator `res` recovers `res + v·2^(7i)`. -/
lemma varint_roundtrip_aux (fuel : Nat) :
    ∀ v i res : Nat, ∀ t : List Nat,
      v < 2 ^ 31 →
      v < 2 ^ (7 * (fuel + 1)) →
      7 * i + 7 * (fuel + 1) ≤ 35 →
      res < 2 ^ (7 * i) →
      res + v * 2 ^ (7 * i) < 2 ^ 31 →
      ∃ bs, writeVarintLoop (fuel + 1) v = .ok bs ∧ bs.length ≤ fuel + 1 ∧
        readVarintLoop (fuel + 1) i res (bs ++ t) =
          .ok (toI32 (res + v * 2 ^ (7 * i))) t := by
  induction fuel with
  | zero =>
    intro v i res t h31 hv hfit hres hsum
    have hsmall : v < 128 := by
      have : (2 : Nat) ^ (7 * (0 + 1)) = 128 := by norm_num
      omega
    obtain ⟨hw, hr⟩ := varint_step_small 0 v i res t hsmall hres hsum
    exact ⟨[v], hw, by simp, by simpa using hr⟩
  | succ fuel ih =>
    intro v i res t h31 hv hfit hres hsum
    by_cases hsmall : v < 128
    · obtain ⟨hw, hr⟩ := varint_step_small (fuel + 1) v i res t hsmall hres hsum
      exact ⟨[v], hw, by simp, by simpa using hr⟩
    · push_neg at hsmall
      have hcond : ¬(v &&& 0xFFFFFF80 = 0) := by
        rw [andNot7_eq_zero_iff v (by omega)]
        omega
      have hasr : asr7 v = v / 128 := by
        rw [asr7, if_pos h31, Nat.shiftRight_eq_div_pow]
      -- facts used to instantiate the induction hypothesis
      have hpow : (2 : Nat) ^ (7 * (i + 1)) = 128 * 2 ^ (7 * i) := by
        have : 7 * (i + 1) = 7 + 7 * i := by ring
        rw [this, pow_add]
        norm_num
      have hvmod : v % 128 < 128 := Nat.mod_lt _ (by norm_num)
      have hsplit : v % 128 + 128 * (v / 128) = v := Nat.mod_add_div v 128
      have hmono : v % 128 * 2 ^ (7 * i) ≤ v * 2 ^ (7 * i) :=
        Nat.mul_le_mul_right _ (Nat.mod_le v 128)
      have hres' : res + v % 128 * 2 ^ (7 * i) < 2 ^ (7 * (i + 1)) := by
        rw [hpow]
        have := Nat.mul_le_mul_right (2 ^ (7 * i)) (show v % 128 ≤ 127 by omega)
        omega
      have hflat : res + v % 128 * 2 ^ (7 * i) + v / 128 * 2 ^ (7 * (i + 1)) =
          res + v * 2 ^ (7 * i) := by
        rw [hpow]
        have : v % 128 * 2 ^ (7 * i) + v / 128 * (128 * 2 ^ (7 * i)) =
            v * 2 ^ (7 * i) := by
          conv_rhs => rw [← hsplit]
          ring
        omega
      have hdivlt : v / 128 < 2 ^ (7 * (fuel + 1)) := by
        apply Nat.div_lt_of_lt_mul
        have : (2 : Nat) ^ (7 * (fuel + 1 + 1)) = 128 * 2 ^ (7 * (fuel + 1)) := by
          have h7 : 7 * (fuel + 1 + 1) = 7 + 7 * (fuel + 1) := by ring
          rw [h7, pow_add]
          norm_num
        omega
      obtain ⟨bs', hw', hlen', hr'⟩ :=
        ih (v / 128) (i + 1) (res + v % 128 * 2 ^ (7 * i)) t
          (by omega) hdivlt (by omega) hres' (by omega)
      -- the emitted continuation byte
      have hb0or : (v &&& 0x7F) ||| 0x80 = v % 128 + 128 := by
        rw [and127]
        have hdisj : v % 128 &&& 0x80 = 0 := by
          have := and_shiftLeft_disjoint (v % 128) 1 7 hvmod
          simpa [Nat.shiftLeft_eq] using this
        exact or_disjoint _ _ hdisj
      have hb0 : ((v &&& 0x7F) ||| 0x80) % 256 = v % 128 + 128 := by
        rw [hb0or, Nat.mod_eq_of_lt (by omega)]
      have hdisj : v % 128 &&& 0x80 = 0 := by
        have := and_shiftLeft_disjoint (v % 128) 1 7 hvmod
        simpa [Nat.shiftLeft_eq] using this
      refine ⟨(v % 128 + 128) :: bs', ?_, by simpa using by omega, ?_⟩
      · rw [writeVarintLoop, if_neg hcond, hasr, hw']
        simp [Except.map, hb0]
      · -- read side: consume the continuation byte, then apply the invariant
        have hpart127 : (v % 128 + 128) &&& 0x7F = v % 128 := by
          have he : v % 128 + 128 = v % 128 ||| 128 := (or_disjoint _ _ hdisj).symm
          rw [he, Nat.and_distrib_right, and127]
          have h128127 : (128 : Nat) &&& 127 = 0 := by decide
          rw [h128127, Nat.or_zero]
          omega
        have hpart128 : (v % 128 + 128) &&& 0x80 ≠ 0 := by
          have he : v % 128 + 128 = v % 128 ||| 128 := (or_disjoint _ _ hdisj).symm
          rw [he, Nat.and_distrib_right, hdisj, Nat.zero_or]
          decide
        have hshift : ((v % 128) <<< (7 * i)) % 2 ^ 32 = v % 128 * 2 ^ (7 * i) := by
          rw [Nat.shiftLeft_eq, Nat.mod_eq_of_lt (by omega)]
        have hor : res ||| v % 128 * 2 ^ (7 * i) = res + v % 128 * 2 ^ (7 * i) := by
          apply or_disjoint
          have := and_shiftLeft_disjoint res (v % 128) (7 * i) hres
          simpa [Nat.shiftLeft_eq] using this
        have hstep : readVarintLoop (fuel + 1 + 1) i res
              (((v % 128 + 128) :: bs') ++ t) =
            readVarintLoop (fuel + 1) (i + 1) (res + v % 128 * 2 ^ (7 * i))
              (bs' ++ t) := by
          rw [List.cons_append, readVarintLoop]
          simp only [readU8]
          rw [hpart127, hshift, hor, if_neg hpart128]
        rw [hstep, hr', hflat]

/-- A successful VarInt read consumes at most `fuel` bytes. -/
lemma readVarintLoop_consumes (fuel : Nat) :
    ∀ i res s v rest, readVarintLoop fuel i res s = .ok v rest →
      ∃ k, k ≤ fuel ∧ rest = s.drop k := by
  induction fuel with
  | zero =>
    intro i res s v rest h
    simp [readVarintLoop] at h
  | succ fuel ih =>
    intro i res s v rest h
    match s with
    | [] => simp [readVarintLoop, readU8] at h
    | b :: s' =>
      rw [readVarintLoop] at h
      simp only [readU8] at h
      by_cases hb : b &&& 0x80 = 0
      · rw [if_pos hb] at h
        cases h
        exact ⟨1, by omega, rfl⟩
      · rw [if_neg hb] at h
        obtain ⟨k, hk, hrest⟩ := ih _ _ _ _ _ h
        exact ⟨k + 1, by omega, hrest⟩

/-- The VarInt read loop raises the oversize error exactly when its next
`fuel` bytes all carry the continuation bit. -/
lemma readVarintLoop_tooBig (fuel : Nat) :
    ∀ i res s, readVarintLoop fuel i res s = .ioErr varIntTooBigMsg ↔
      fuel ≤ s.length ∧ ∀ b ∈ s.take fuel, b &&& 0x80 ≠ 0 := by
  induction fuel with
  | zero =>
    intro i res s
    simp [readVarintLoop]
  | succ fuel ih =>
    intro i res s
    match s with
    | [] =>
      simp only [readVarintLoop, readU8]
      constructor
      · intro h
        exact absurd (RResult.ioErr.inj h) (by decide)
      · rintro ⟨h, -⟩
        simp at h
    | b :: s' =>
      rw [readVarintLoop]
      simp only [readU8]
      by_cases hb : b &&& 0x80 = 0
      · rw [if_pos hb]
        constructor
        · intro h
          cases h
        · rintro ⟨-, hall⟩
          exact absurd hb (hall b (by simp))
      · rw [if_neg hb]
        rw [ih]
        constructor
        · rintro ⟨hlen, hall⟩
          refine ⟨by simpa using hlen, ?_⟩
          intro x hx
          rcases (by simpa using hx : x = b ∨ x ∈ s'.take fuel) with rfl | hx'
          · exact hb
          · exact hall x hx'
        · rintro ⟨hlen, hall⟩
          refine ⟨by simpa using hlen, ?_⟩
          intro x hx
          exact hall x (by simp [hx])

/-- C5: (a) for every `v ∈ [0, 2^31)` the VarInt writer succeeds with at
most 5 bytes and the reader reads the bytes back to exactly `v`; (b) the
reader fails with the VarInt-too-large error exactly when the first five
bytes are present and all carry the continuation bit `0x80` (i.e. the fifth
byte read still has it set); (c) otherwise a successful read consumes at
most 5 bytes. -/
theorem c5_varint_roundtrip :
    (∀ v : Nat, v < 2 ^ 31 →
      ∃ bs, writeVarint v = .ok bs ∧ bs.length ≤ 5 ∧
        ∀ t, readVarint (bs ++ t) = .ok (v : Int) t) ∧
    (∀ s, readVarint s = .ioErr varIntTooBigMsg ↔
      5 ≤ s.length ∧ ∀ b ∈ s.take 5, b &&& 0x80 ≠ 0) ∧
    (∀ s (v : Int) rest, readVarint s = .ok v rest →
      ∃ k, k ≤ 5 ∧ rest = s.drop k) := by
  refine ⟨?_, ?_, ?_⟩
  · intro v hv
    have hv35 : v < 2 ^ (7 * (4 + 1)) := by
      have h1 : (2 : Nat) ^ 31 ≤ 2 ^ (7 * (4 + 1)) :=
        Nat.pow_le_pow_right (by norm_num) (by norm_num)
      omega
    have hres : (0 : Nat) < 2 ^ (7 * 0) := by norm_num
    have hsum : 0 + v * 2 ^ (7 * 0) < 2 ^ 31 := by simpa using hv
    obtain ⟨bs, hw, hlen, _⟩ :=
      varint_roundtrip_aux 4 v 0 0 [] hv hv35 (by norm_num) hres hsum
    refine ⟨bs, hw, hlen, ?_⟩
    intro t
    obtain ⟨bs', hw', _, hr'⟩ :=
      varint_roundtrip_aux 4 v 0 0 t hv hv35 (by norm_num) hres hsum
    have hbs : bs' = bs := by
      have := hw.symm.trans hw'
      exact (Except.ok.inj this).symm
    rw [hbs] at hr'
    have : toI32 (0 + v * 2 ^ (7 * 0)) = (v : Int) := by
      rw [show 0 + v * 2 ^ (7 * 0) = v by simp]
      exact toI32_of_lt hv
    rw [readVarint]
    rw [show (5 : Nat) = 4 + 1 from rfl]
    rw [hr', this]
  · intro s
    exact readVarintLoop_tooBig 5 0 0 s
  · intro s v rest h
    exact readVarintLoop_consumes 5 0 0 s v rest h

/-- Witness for C5 at concrete inputs: `v = 300` round-trips, the all-ones
stream trips the oversize error, and a concrete successful read consumes at
most 5 bytes. -/
theorem c5_varint_roundtrip_witness :
    (∃ bs, writeVarint 300 = .ok bs ∧ bs.length ≤ 5 ∧
      ∀ t, readVarint (bs ++ t) = .ok (300 : Int) t) ∧
    readVarint [0xFF, 0xFF, 0xFF, 0xFF, 0xFF] = .ioErr varIntTooBigMsg ∧
    (∃ k, k ≤ 5 ∧ ([5, 9] : List Nat).drop 1 = ([5, 9] : List Nat).drop k) := by
  refine ⟨?_, ?_, ?_⟩
  · exact c5_varint_roundtrip.1 300 (by norm_num)
  · exact (c5_varint_roundtrip.2.1 [0xFF, 0xFF, 0xFF, 0xFF, 0xFF]).mpr (by decide)
  · have h := c5_varint_roundtrip.2.2 [5, 9] 5 [9] (by decide)
    simpa using h

example : writeVarint 0 = .ok [0] := rfl
example : writeVarint 300 = .ok [0xAC, 0x02] := rfl
example : readVarint [0xAC, 0x02, 7] = .ok 300 [7] := by decide
example : readVarint [0xFF, 0xFF, 0xFF, 0xFF, 0x0F] = .ok (-1) [] := by decide
example : readVarint [0xFF, 0xFF, 0xFF, 0xFF, 0xFF] = .ioErr varIntTooBigMsg := by
  decide

/-- C1: the spec requires invalid UTF-8 in a Java length-prefixed string to
surface as a protocol error value; the code instead runs
`String::from_utf8(buf).expect("Invalid UTF-8 String.")` and PANICS.  At
the failing input (VarInt length 1, payload byte `0xFF`, not valid UTF-8)
the embedded reader evaluates to the panic outcome, not an error value. -/
theorem c1_invalid_utf8_panics :
    readStringJ [0x01, 0xFF] = .panic "Invalid UTF-8 String." ∧
    ∀ m : String, readStringJ [0x01, 0xFF] ≠ .ioErr m := by
  refine ⟨by decide, ?_⟩
  intro m h
  rw [(by decide : readStringJ [0x01, 0xFF] =
    RResult.panic "Invalid UTF-8 String.")] at h
  exact RResult.noConfusion h

/-- `toI32` always lands in the signed 32-bit range. -/
lemma toI32_range (n : Nat) : -(2 ^ 31) ≤ toI32 n ∧ toI32 n < 2 ^ 31 := by
  rw [toI32]
  have h := Nat.mod_lt n (show 0 < 2 ^ 32 by norm_num)
  split <;> omega

/-- Every value produced by the VarInt read loop is a signed 32-bit
value. -/
lemma readVarintLoop_ok_range (fuel : Nat) :
    ∀ i res s (v : Int) rest, readVarintLoop fuel i res s = .ok v rest →
      -(2 ^ 31) ≤ v ∧ v < 2 ^ 31 := by
  induction fuel with
  | zero =>
    intro i res s v rest h
    simp [readVarintLoop] at h
  | succ fuel ih =>
    intro i res s v rest h
    match s with
    | [] => simp [readVarintLoop, readU8] at h
    | b :: s' =>
      rw [readVarintLoop] at h
      simp only [readU8] at h
      by_cases hb : b &&& 0x80 = 0
      · rw [if_pos hb] at h
        cases h
        exact toI32_range _
      · rw [if_neg hb] at h
        exact ih _ _ _ _ _ h

/-- C10 fails as stated: on the frame whose VarInt length prefix decodes
to `-1`, `vec![0; len as usize]` runs before any read; the sign-extended
count `2^64 - 1` exceeds `isize::MAX`, so the program panics with
"capacity overflow" — it never attempts the read and never produces the
claimed I/O error, in the packet reader and in the string reader alike. -/
theorem c10_counterexample :
    readVarint [0xFF, 0xFF, 0xFF, 0xFF, 0x0F] = .ok (-1) [] ∧
    readPacket [0xFF, 0xFF, 0xFF, 0xFF, 0x0F] = .panic "capacity overflow" ∧
    readStringJ [0xFF, 0xFF, 0xFF, 0xFF, 0x0F] = .panic "capacity overflow" ∧
    (∀ m : String,
      readPacket [0xFF, 0xFF, 0xFF, 0xFF, 0x0F] ≠ .err (.ioError m)) := by
  refine ⟨by decide, by decide, by decide, ?_⟩
  intro m h
  rw [(by decide : readPacket [0xFF, 0xFF, 0xFF, 0xFF, 0x0F] =
    PResult.panic "capacity overflow")] at h
  exact PResult.noConfusion h

/-- C10 amended: a Java frame length (or string length) whose VarInt
decodes to a negative `i32` is not rejected as `InvalidPacket` or a VarInt
error — the `as usize` cast reinterprets it as a huge unsigned count
(`-1` becomes `2^64 - 1`) — but that count always exceeds `isize::MAX`
(`2^63 - 1`), so the `vec![0; len]` buffer allocation panics with
"capacity overflow" before any read is attempted, in `read_packet` and in
`read_string` alike. -/
theorem c10_amended :
    (∀ s (v : Int) rest, readVarint s = .ok v rest → v < 0 →
      2 ^ 63 - 1 < i32ToUsize v ∧
      readPacket s = .panic "capacity overflow" ∧
      readStringJ s = .panic "capacity overflow") ∧
    i32ToUsize (-1) = 2 ^ 64 - 1 := by
  constructor
  · intro s v rest hv hneg
    have hrange := readVarintLoop_ok_range 5 0 0 s v rest hv
    have hbig : 2 ^ 63 - 1 < i32ToUsize v := by
      rw [i32ToUsize]
      have hmod : v % (2 ^ 64 : Int) = v + 2 ^ 64 := by omega
      rw [hmod]
      omega
    refine ⟨hbig, ?_, ?_⟩
    · simp only [readPacket, hv]
      rw [if_pos hbig]
    · simp only [readStringJ, hv]
      rw [if_pos hbig]
  · decide

/-- Witness for C10 amended at the frame whose length VarInt encodes
`-1`. -/
theorem c10_amended_witness :
    2 ^ 63 - 1 < i32ToUsize (-1) ∧
    readPacket [0xFF, 0xFF, 0xFF, 0xFF, 0x0F] = .panic "capacity overflow" ∧
    readStringJ [0xFF, 0xFF, 0xFF, 0xFF, 0x0F] = .panic "capacity overflow" :=
  c10_amended.1 [0xFF, 0xFF, 0xFF, 0xFF, 0x0F] (-1) [] (by decide) (by decide)

/-- The split of a character list is never empty. -/
lemma splitOnChar_ne_nil (sep : Char) (l : List Char) : splitOnChar sep l ≠ [] := by
  cases l with
  | nil => simp [splitOnChar]
  | cons c rest =>
    by_cases hc : c = sep
    · simp [splitOnChar, hc]
    · simp only [splitOnChar, if_neg hc]
      rcases hr : splitOnChar sep rest with _ | ⟨h, t⟩
      · simp
      · simp

/-- The first field of a split is the run of characters before the first
separator. -/
lemma splitOnChar_head? (sep : Char) (l : List Char) :
    (splitOnChar sep l).head? = some (l.takeWhile (fun c => c ≠ sep)) := by
  induction l with
  | nil => simp [splitOnChar]
  | cons c rest ih =>
    by_cases hc : c = sep
    · subst hc
      simp [splitOnChar, List.takeWhile_cons]
    · simp only [splitOnChar, if_neg hc]
      rcases hr : splitOnChar sep rest with _ | ⟨h, t⟩
      · exact absurd hr (splitOnChar_ne_nil sep rest)
      · rw [hr] at ih
        simp only [List.head?] at ih
        simp [List.takeWhile_cons, hc, Option.some.inj ih]

/-- A list without the separator splits into a single field. -/
lemma splitOnChar_no_sep (sep : Char) (l : List Char) (h : sep ∉ l) :
    splitOnChar sep l = [l] := by
  induction l with
  | nil => simp [splitOnChar]
  | cons c rest ih =>
    have hc : ¬c = sep := by
      intro hcc
      exact h (by simp [hcc])
    have hrest : sep ∉ rest := fun hm => h (by simp [hm])
    simp [splitOnChar, if_neg hc, ih hrest]

/-- Splitting at the first separator: the clean head becomes the first
field and the tail is split on its own. -/
lemma splitOnChar_append_sep (sep : Char) (h rest : List Char) (hh : sep ∉ h) :
    splitOnChar sep (h ++ sep :: rest) = h :: splitOnChar sep rest := by
  induction h with
  | nil => simp [splitOnChar]
  | cons c h' ih =>
    have hc : ¬c = sep := by
      intro hcc
      exact hh (by simp [hcc])
    have hh' : sep ∉ h' := fun hm => hh (by simp [hm])
    simp [splitOnChar, if_neg hc, ih hh']

/-- C7 fails as stated: the parser does not treat the entire right side of
the first `:` as the port.  On `"a:1:2"` the right side `"1:2"` does not
parse as a `u16`, so the claim demands `InvalidAddress`, but the code
parses only the second `:`-separated field and succeeds with port 1. -/
theorem c7_counterexample :
    parseAddress javaDefaultPort ("a:1:2".data) = .ok (['a'], 1) ∧
    parseU16 ("1:2".data) = none :=
  ⟨rfl, by decide⟩

/-- C7 amended: the address is split on `:`; the host is the text before
the first `:`; the port is parsed (base-10 `u16`) from the text between the
first and second `:` only, any later fields being ignored; a missing `:`
uses the default port (25565 Java, 19132 Bedrock); a parse failure of that
field is `InvalidAddress`. -/
theorem c7_amended :
    (∀ (dp : Nat) (addr : List Char), ':' ∉ addr →
      parseAddress dp addr = .ok (addr, dp)) ∧
    (∀ (dp : Nat) (h rest : List Char), ':' ∉ h →
      parseAddress dp (h ++ ':' :: rest) =
        match parseU16 (rest.takeWhile (fun c => c ≠ ':')) with
        | some port => .ok (h, port)
        | none => .error .invalidAddress) ∧
    parseAddress javaDefaultPort ("a.b.c:1234".data) = .ok ("a.b.c".data, 1234) ∧
    parseAddress javaDefaultPort ("a.b.c:bogus".data) = .error .invalidAddress ∧
    parseAddress javaDefaultPort ("a.b.c".data) = .ok ("a.b.c".data, javaDefaultPort) ∧
    parseAddress bedrockDefaultPort ("a.b.c".data) = .ok ("a.b.c".data, bedrockDefaultPort) ∧
    javaDefaultPort = 25565 ∧ bedrockDefaultPort = 19132 := by
  refine ⟨?_, ?_, rfl, rfl, rfl, rfl, rfl, rfl⟩
  · intro dp addr h
    simp [parseAddress, splitOnChar_no_sep ':' addr h]
  · intro dp h rest hh
    have hsplit := splitOnChar_append_sep ':' h rest hh
    have hhead := splitOnChar_head? ':' rest
    rcases hr : splitOnChar ':' rest with _ | ⟨f, t⟩
    · exact absurd hr (splitOnChar_ne_nil ':' rest)
    · rw [hr] at hsplit hhead
      simp only [List.head?] at hhead
      simp only [ne_eq, decide_not] at hhead
      simp [parseAddress, hsplit, Option.some.inj hhead]

/-- Witness for C7 amended at concrete inputs. -/
theorem c7_amended_witness :
    parseAddress 19132 ['x'] = .ok (['x'], 19132) ∧
    parseAddress 25565 (['a'] ++ ':' :: ['9']) =
      (match parseU16 (['9'].takeWhile (fun c => c ≠ ':')) with
        | some port => .ok (['a'], port)
        | none => .error .invalidAddress) :=
  ⟨c7_amended.1 19132 ['x'] (by decide),
   c7_amended.2.1 25565 ['a'] ['9'] (by decide)⟩

/-- C2 fails as stated: the payload decoder does not accept every payload
whose first two fields are present — the `?` operator is also applied to
the `protocol_version` and `version_name` iterator slots, so the input
`"MCPE;MOTD"` (which the claim says is accepted) is rejected. -/
theorem c2_counterexample : extract ("MCPE;MOTD".data) = none := by decide

/-- C2 amended: the Bedrock payload decoder accepts a payload iff its first
FOUR semicolon-separated fields (edition, motd_1, the protocol_version
slot, version_name) are present; an integer-typed field whose text fails
numeric parsing (including the present-but-unparseable protocol_version
slot) becomes absent while the remaining fields are still parsed; in
particular `"MCPE;MOTD"` is rejected while
`"MCPE;M;abc;1.16;xyz;10"` is accepted with `protocol_version = None`,
`players_online = None` and `players_max = Some 10`. -/
theorem c2_amended :
    (∀ p : List Char, (extract p).isSome ↔ 4 ≤ (splitOnChar ';' p).length) ∧
    (∀ (p : List Char) (r : BedrockResponse), extract p = some r →
      r.protocol_version = ((splitOnChar ';' p)[2]?).bind parseI64 ∧
      r.players_online = ((splitOnChar ';' p)[4]?).bind parseI64 ∧
      r.players_max = ((splitOnChar ';' p)[5]?).bind parseI64) ∧
    extract ("MCPE;M;abc;1.16;xyz;10".data) =
      some { edition := .pocketEdition, motd_1 := ['M'],
             protocol_version := none, version_name := "1.16".data,
             players_online := none, players_max := some 10,
             server_id := none, motd_2 := none, game_mode := none,
             game_mode_id := none, port_v4 := none, port_v6 := none } := by
  refine ⟨?_, ?_, by decide⟩
  · intro p
    rcases hl : splitOnChar ';' p with _ | ⟨a, _ | ⟨b, _ | ⟨c, _ | ⟨d, t⟩⟩⟩⟩ <;>
      simp [extract, hl]
  · intro p r h
    rcases hl : splitOnChar ';' p with _ | ⟨a, _ | ⟨b, _ | ⟨c, _ | ⟨d, t⟩⟩⟩⟩ <;>
      rw [extract] at h <;> simp [hl] at h <;> simp [hl, ← h]

/-- Witness for C2 amended at concrete payloads. -/
theorem c2_amended_witness :
    ((extract ("MCPE;MOTD".data)).isSome ↔
      4 ≤ (splitOnChar ';' ("MCPE;MOTD".data)).length) ∧
    (BedrockResponse.protocol_version
        { edition := .pocketEdition, motd_1 := ['M'],
          protocol_version := none, version_name := "1.16".data,
          players_online := none, players_max := some 10,
          server_id := none, motd_2 := none, game_mode := none,
          game_mode_id := none, port_v4 := none, port_v6 := none } =
        ((splitOnChar ';' ("MCPE;M;abc;1.16;xyz;10".data))[2]?).bind parseI64 ∧
      BedrockResponse.players_online
        { edition := .pocketEdition, motd_1 := ['M'],
          protocol_version := none, version_name := "1.16".data,
          players_online := none, players_max := some 10,
          server_id := none, motd_2 := none, game_mode := none,
          game_mode_id := none, port_v4 := none, port_v6 := none } =
        ((splitOnChar ';' ("MCPE;M;abc;1.16;xyz;10".data))[4]?).bind parseI64 ∧
      BedrockResponse.players_max
        { edition := .pocketEdition, motd_1 := ['M'],
          protocol_version := none, version_name := "1.16".data,
          players_online := none, players_max := some 10,
          server_id := none, motd_2 := none, game_mode := none,
          game_mode_id := none, port_v4 := none, port_v6 := none } =
        ((splitOnChar ';' ("MCPE;M;abc;1.16;xyz;10".data))[5]?).bind parseI64) :=
  ⟨c2_amended.1 ("MCPE;MOTD".data),
   c2_amended.2.1 ("MCPE;M;abc;1.16;xyz;10".data) _ (by decide)⟩

/-- Closed form of the Bedrock send loop with a configured wait. -/
lemma bedrockSendLoop_some (n w : Nat) :
    bedrockSendLoop n (some w) =
      (List.replicate n [BEvent.send unconnectedPingBytes, BEvent.sleep w]).flatten := by
  induction n with
  | zero => simp [bedrockSendLoop]
  | succ n ih => simp [bedrockSendLoop, List.replicate_succ, ih]

/-- Closed form of the Bedrock send loop without a wait. -/
lemma bedrockSendLoop_none (n : Nat) :
    bedrockSendLoop n none =
      List.replicate n (BEvent.send unconnectedPingBytes) := by
  induction n with
  | zero => simp [bedrockSendLoop]
  | succ n ih => simp [bedrockSendLoop, List.replicate_succ, ih]

/-- The send loop emits exactly `n` send events. -/
lemma bedrockSendLoop_send_count (n : Nat) (w : Option Nat) :
    ((bedrockSendLoop n w).filter (fun e => e.isSend)).length = n := by
  induction n with
  | zero => simp [bedrockSendLoop]
  | succ n ih =>
    have h1 : (BEvent.send unconnectedPingBytes).isSend = true := rfl
    have h2 : ∀ d, (BEvent.sleep d).isSend = false := fun _ => rfl
    cases w <;> simp [bedrockSendLoop, h1, h2, ih]

/-- The send loop emits no receive event. -/
lemma bedrockSendLoop_recv_count (n : Nat) (w : Option Nat) :
    ((bedrockSendLoop n w).filter (fun e => e.isRecv)).length = 0 := by
  induction n with
  | zero => simp [bedrockSendLoop]
  | succ n ih =>
    have h1 : (BEvent.send unconnectedPingBytes).isRecv = false := rfl
    have h2 : ∀ d, (BEvent.sleep d).isRecv = false := fun _ => rfl
    cases w <;> simp [bedrockSendLoop, h1, h2, ih]

/-- C8: every Bedrock ping call with `tries = n` sends exactly `n`
`Unconnected Ping` packets — each the exact 33 bytes `0x01`, zero `i64`
timestamp, the 16-byte magic, zero `i64` client GUID — before the single
receive; with `wait_to_try = some w` a sleep of `w` follows each send (so
one occurs between any two consecutive sends); the timestamp capture and
the one receive come after the whole loop. -/
theorem c8_send_loop :
    unconnectedPingBytes =
      [0x01, 0x00, 0x00, 0x00, 0x00, 0x00, 0x00, 0x00, 0x00,
       0x00, 0xff, 0xff, 0x00, 0xfe, 0xfe, 0xfe, 0xfe,
       0xfd, 0xfd, 0xfd, 0xfd, 0x12, 0x34, 0x56, 0x78,
       0x00, 0x00, 0x00, 0x00, 0x00, 0x00, 0x00, 0x00] ∧
    (∀ tries w t0, bedrockPingTrace tries (some w) t0 =
      (List.replicate tries [BEvent.send unconnectedPingBytes,
        BEvent.sleep w]).flatten ++ [BEvent.now t0, BEvent.recvStart]) ∧
    (∀ tries t0, bedrockPingTrace tries none t0 =
      List.replicate tries (BEvent.send unconnectedPingBytes) ++
        [BEvent.now t0, BEvent.recvStart]) ∧
    (∀ tries w t0,
      ((bedrockPingTrace tries w t0).filter (fun e => e.isSend)).length = tries) ∧
    (∀ tries w t0,
      ((bedrockPingTrace tries w t0).filter (fun e => e.isRecv)).length = 1) ∧
    (∀ tries w t0, (bedrockPingTrace tries w t0).getLast? = some .recvStart) := by
  refine ⟨by decide, ?_, ?_, ?_, ?_, ?_⟩
  · intro tries w t0
    rw [bedrockPingTrace, bedrockSendLoop_some]
  · intro tries t0
    rw [bedrockPingTrace, bedrockSendLoop_none]
  · intro tries w t0
    have hsl := bedrockSendLoop_send_count tries w
    have h1 : (BEvent.now t0).isSend = false := rfl
    have h2 : BEvent.recvStart.isSend = false := rfl
    simp [bedrockPingTrace, List.filter_append, h1, h2, hsl]
  · intro tries w t0
    have hsl := bedrockSendLoop_recv_count tries w
    have h1 : (BEvent.now t0).isRecv = false := rfl
    have h2 : BEvent.recvStart.isRecv = true := rfl
    simp [bedrockPingTrace, List.filter_append, h1, h2, hsl]
  · intro tries w t0
    simp [bedrockPingTrace]

/-- The receive buffer always holds exactly 1024 bytes. -/
lemma recvBuffer_length (d : List Nat) : (recvBuffer d).length = 1024 := by
  simp [recvBuffer]
  omega

/-- `read_exact` on a sufficiently long stream. -/
lemma readExact_of_le (n : Nat) (s : List Nat) (h : n ≤ s.length) :
    readExact n s = .ok (s.take n) (s.drop n) := by
  rw [readExact, if_pos h]

/-- `read_u64` on a sufficiently long stream. -/
lemma readU64_of_le (s : List Nat) (h : 8 ≤ s.length) :
    readU64 s = .ok ((s.take 8).foldl (fun acc b => acc * 256 + b) 0)
      (s.drop 8) := by
  rw [readU64, readExact_of_le 8 s h]

/-- C3 fails as stated: a Bedrock datagram whose first byte is not `0x1C`
makes the ping call fail with `Error::IoError("Invalid S -> C Packet")`,
not with `Error::InvalidPacket`. -/
theorem c3_counterexample :
    bedrockHandle [0x00] = .error (.ioError "Invalid S -> C Packet") ∧
    bedrockHandle [0x00] ≠ .error .invalidPacket := by
  have h1 : bedrockHandle [0x00] = .error (.ioError "Invalid S -> C Packet") := rfl
  refine ⟨h1, fun h => ?_⟩
  have h2 := Except.error.inj (h1.symm.trans h)
  exact McError.noConfusion h2

/-- C3 amended: a wrong packet ID, a mismatched offline-message magic, or a
rejected payload string each make the Bedrock receive path fail with the
`IoError` variant (wrapping a descriptive `io::Error` message); no failure
of this path ever produces `InvalidPacket`. -/
theorem c3_amended :
    (∀ (d : List Nat) (e : McError), bedrockHandle d = .error e →
      ∃ m, e = .ioError m) ∧
    (∀ (d : List Nat) (b : Nat) (rest : List Nat),
      recvBuffer d = b :: rest → b ≠ 0x1C →
      bedrockHandle d = .error (.ioError "Invalid S -> C Packet")) ∧
    (∀ (d : List Nat) (rest : List Nat), recvBuffer d = 0x1C :: rest →
      (rest.drop 16).take 16 ≠ OFFLINE_MESSAGE_DATA_ID →
      bedrockHandle d =
        .error (.ioError "incorrect offline message data ID received")) ∧
    (∀ (d : List Nat) (t g : Nat) (payload : List Char),
      bedrockRead d = .ok (.unconnectedPong t g payload) →
      extract payload = none →
      bedrockHandle d = .error (.ioError "Invalid Payload")) := by
  refine ⟨?_, ?_, ?_, ?_⟩
  · intro d e h
    rw [bedrockHandle] at h
    split at h
    · exact ⟨_, (Except.error.inj h).symm⟩
    · split at h
      · split at h
        · exact Except.noConfusion h
        · exact ⟨_, (Except.error.inj h).symm⟩
      · exact ⟨_, (Except.error.inj h).symm⟩
  · intro d b rest hrb hb
    have hr : bedrockRead d = .error "Invalid S -> C Packet" := by
      rw [bedrockRead]
      simp only [hrb, readU8]
      rw [if_neg hb]
    simp [bedrockHandle, hr]
  · intro d rest hrb hm
    have hlen : rest.length = 1023 := by
      have h := recvBuffer_length d
      rw [hrb] at h
      simpa using h
    have h1 : readU8 (recvBuffer d) = .ok 0x1C rest := by
      rw [hrb]
      rfl
    have h2 := readU64_of_le rest (by omega)
    have h3 := readU64_of_le (rest.drop 8) (by simp [hlen])
    have hdd : (rest.drop 8).drop 8 = rest.drop 16 := by
      rw [List.drop_drop]
    have h4 := readExact_of_le 16 (rest.drop 16) (by simp [hlen])
    have hr : bedrockRead d =
        .error "incorrect offline message data ID received" := by
      rw [bedrockRead]
      simp only [h1, if_true]
      simp only [h2, h3, hdd, h4]
      rw [if_pos hm]
    simp [bedrockHandle, hr]
  · intro d t g payload h1 h2
    simp [bedrockHandle, h1, h2]

set_option maxRecDepth 40000 in
/-- Witness for C3 amended: each failure condition exercised on a concrete
datagram. -/
theorem c3_amended_witness :
    (∃ m, McError.ioError "Invalid S -> C Packet" = McError.ioError m) ∧
    bedrockHandle ([] : List Nat) = .error (.ioError "Invalid S -> C Packet") ∧
    bedrockHandle [0x1C] =
      .error (.ioError "incorrect offline message data ID received") ∧
    bedrockHandle ([0x1C] ++ u64be 0 ++ u64be 0 ++ OFFLINE_MESSAGE_DATA_ID ++
        [0x00, 0x04] ++ [0x4D, 0x43, 0x50, 0x45]) =
      .error (.ioError "Invalid Payload") :=
  ⟨c3_amended.1 [0x00] (.ioError "Invalid S -> C Packet") rfl,
   c3_amended.2.1 [] 0 (List.replicate 1023 0)
     (by simp [recvBuffer]) (by decide),
   c3_amended.2.2.1 [0x1C] (List.replicate 1023 0)
     (by simp [recvBuffer]) (by decide),
   c3_amended.2.2.2 _ 0 0 ("MCPE".data) rfl (by decide)⟩

/-- C6: Java DNS resolution queries the SRV name
`"_minecraft._tcp." ++ host ++ "."` exactly; a found SRV record whose
target resolves yields `(first IP of target, SRV port)`, overriding the
parsed port; any SRV-path failure falls back to resolving the host
directly with the parsed port; with no IP from either path the result is
`DnsLookupFailed`.  The outcome depends on the resolver only through its
answers for that exact query string and its IP lookups. -/
theorem c6_dns_resolution :
    (∀ (res : Resolver) (host : List Char) (port : Nat)
        (rec : SrvRecord) (rest : List SrvRecord) (ip : Nat),
      res.srv (srvQuery host) = some (rec :: rest) →
      lookupIp res rec.target = some ip →
      resolveJava res host port = .ok (ip, rec.port)) ∧
    (∀ (res : Resolver) (host : List Char) (port : Nat),
      (res.srv (srvQuery host)).bind
        (fun l => l.head?.bind (fun r => lookupIp res r.target)) = none →
      resolveJava res host port =
        match lookupIp res host with
        | some ip => .ok (ip, port)
        | none => .error .dnsLookupFailed) ∧
    (∀ host : List Char, srvQuery host = "_minecraft._tcp.".data ++ host ++ ['.']) ∧
    (∀ (res₁ res₂ : Resolver) (host : List Char) (port : Nat),
      res₁.srv (srvQuery host) = res₂.srv (srvQuery host) →
      res₁.ips = res₂.ips →
      resolveJava res₁ host port = resolveJava res₂ host port) := by
  refine ⟨?_, ?_, ?_, ?_⟩
  · intro res host port rec rest ip hsrv hip
    rw [resolveJava, hsrv]
    simp [hip]
  · intro res host port hfail
    rw [resolveJava]
    rcases hsrv : res.srv (srvQuery host) with _ | l
    · simp
    · rw [hsrv] at hfail
      simp only [Option.some_bind] at hfail ⊢
      rcases hl : l.head? with _ | r
      · simp [hl]
      · rw [hl] at hfail
        simp only [Option.some_bind] at hfail
        simp [hl, hfail]
  · intro host
    rfl
  · intro res₁ res₂ host port hsrv hips
    have hlk : lookupIp res₁ = lookupIp res₂ := by
      funext h
      rw [lookupIp, lookupIp, hips]
    rw [resolveJava, resolveJava, hsrv, hlk]

/-- Witness for C6 at a concrete resolver: a host whose SRV record points
at target `"t"` port 7 resolving to IP 42, and the SRV-failure fallback. -/
theorem c6_dns_resolution_witness :
    resolveJava
      ⟨fun q => if q = srvQuery ['h'] then some [⟨['t'], 7⟩] else none,
       fun h => if h = ['t'] then some [42] else none⟩
      ['h'] 25565 = .ok (42, 7) ∧
    resolveJava
      ⟨fun _ => none, fun h => if h = ['h'] then some [9] else none⟩
      ['h'] 25565 =
      (match lookupIp
          ⟨fun _ => none, fun h => if h = ['h'] then some [9] else none⟩
          ['h'] with
        | some ip => .ok (ip, 25565)
        | none => .error .dnsLookupFailed) :=
  ⟨c6_dns_resolution.1
      ⟨fun q => if q = srvQuery ['h'] then some [⟨['t'], 7⟩] else none,
       fun h => if h = ['t'] then some [42] else none⟩
      ['h'] 25565 ⟨['t'], 7⟩ [] 42 (by simp) (by simp [lookupIp]),
   c6_dns_resolution.2.1
      ⟨fun _ => none, fun h => if h = ['h'] then some [9] else none⟩
      ['h'] 25565 (by simp)⟩

/-- The writer succeeds on every non-negative `i32` value. -/
lemma writeVarint_ok (v : Nat) (hv : v < 2 ^ 31) :
    ∃ bs, writeVarint v = .ok bs ∧ bs.length ≤ 5 := by
  have hv35 : v < 2 ^ (7 * (4 + 1)) := by
    have h1 : (2 : Nat) ^ 31 ≤ 2 ^ (7 * (4 + 1)) :=
      Nat.pow_le_pow_right (by norm_num) (by norm_num)
    omega
  obtain ⟨bs, hw, hlen, _⟩ :=
    varint_roundtrip_aux 4 v 0 0 [] hv hv35 (by norm_num) (by norm_num)
      (by simpa using hv)
  exact ⟨bs, hw, hlen⟩

/-- The `Ping` frame: length 9, ID `0x01`, big-endian payload. -/
lemma framePacket_ping_ok (r : Nat) :
    framePacket (.ping r) = .ok ([9, 1] ++ u64be r) := by
  have h1 : writeVarint 0x01 = .ok [1] := rfl
  have h9 : writeVarint 9 = .ok [9] := rfl
  have henc : encodePacket (.ping r) = .ok ([1] ++ u64be r) := by
    simp [encodePacket, h1]
  rw [framePacket]
  simp only [henc]
  have hlen : (([1] ++ u64be r) : List Nat).length % 2 ^ 32 = 9 := by
    simp [u64be]
  simp only [hlen, h9]
  rfl

/-- The `Handshake` frame succeeds whenever the host is of sane length. -/
lemma framePacket_handshake_ok (host : List Nat) (port : Nat)
    (h : host.length < 2 ^ 30) :
    ∃ bs, framePacket (.handshake 47 host port 1) = .ok bs := by
  have hmod : host.length % 4294967296 = host.length := Nat.mod_eq_of_lt (by omega)
  obtain ⟨lb, hlb, hlblen⟩ := writeVarint_ok host.length (by omega)
  have h0 : writeVarint 0x00 = .ok [0] := rfl
  have h47 : writeVarint 47 = .ok [47] := rfl
  have h1 : writeVarint 1 = .ok [1] := rfl
  have hws : writeString host = .ok (lb ++ host) := by
    rw [writeString]
    simp [hmod, hlb, Except.map]
  have henc : encodePacket (.handshake 47 host port 1) =
      .ok ([0] ++ [47] ++ (lb ++ host) ++ u16be port ++ [1]) := by
    simp [encodePacket, h0, h47, h1, hws]
  have hblen :
      (([0] ++ [47] ++ (lb ++ host) ++ u16be port ++ [1]) : List Nat).length
        % 2 ^ 32 = lb.length + host.length + 5 := by
    simp [u16be]
    omega
  obtain ⟨fb, hfb, _⟩ := writeVarint_ok (lb.length + host.length + 5) (by omega)
  refine ⟨fb ++ ([0] ++ [47] ++ (lb ++ host) ++ u16be port ++ [1]), ?_⟩
  rw [framePacket]
  simp only [henc, hblen, hfb]

/-- Once a Java ping call has sent its handshake, read a `Response` and
parsed the JSON, its remaining behaviour is exactly the pong gate: the
second `read_packet`, the payload comparison against the random ping
payload, and the latency computed between the two clock captures that
bracket that read. -/
lemma javaPing_exchange (host : List Nat) (port : Nat) (env : JEnv)
    (hsB : List Nat) (resp : List Char) (s1 : List Nat)
    (hhs : framePacket (.handshake 47 host port 1) = .ok hsB)
    (hresp : readPacket env.stream = .ok (.response resp) s1)
    (hjson : env.json resp = true) :
    javaPing host port env =
      match readPacket s1 with
      | .err e =>
        (.err e, [.send hsB, .send [1, 0], .recv,
          .send ([9, 1] ++ u64be env.rand), .now (env.clock 0), .recv])
      | .panic m =>
        (.panic m, [.send hsB, .send [1, 0], .recv,
          .send ([9, 1] ++ u64be env.rand), .now (env.clock 0), .recv])
      | .ok q _ =>
        match q with
        | .pong payload =>
          if payload = env.rand then
            (.ok (((env.clock 1 - env.clock 0) / 1000000) % 2 ^ 64),
             [.send hsB, .send [1, 0], .recv, .send ([9, 1] ++ u64be env.rand),
              .now (env.clock 0), .recv, .now (env.clock 1)])
          else
            (.err .invalidPacket,
             [.send hsB, .send [1, 0], .recv, .send ([9, 1] ++ u64be env.rand),
              .now (env.clock 0), .recv])
        | _ =>
          (.err .invalidPacket,
           [.send hsB, .send [1, 0], .recv, .send ([9, 1] ++ u64be env.rand),
            .now (env.clock 0), .recv]) := by
  have hreq : framePacket .request = .ok [1, 0] := rfl
  have hping := framePacket_ping_ok env.rand
  rw [javaPing]
  simp only [hhs, hreq, hresp, hjson, hping, if_true]

/-- C9: in a Java ping call that reaches the ping/pong exchange (handshake
frameable, first response read and JSON-parsed), the call succeeds iff the
second packet read yields a `Pong` carrying exactly the random payload; a
`Pong` with a different payload or any other packet in that slot — and
likewise a frame with an unknown packet ID — makes the call fail with
`InvalidPacket`. -/
theorem c9_pong_gate (host : List Nat) (port : Nat) (env : JEnv)
    (resp : List Char) (s1 : List Nat)
    (hhost : host.length < 2 ^ 30)
    (hresp : readPacket env.stream = .ok (.response resp) s1)
    (hjson : env.json resp = true) :
    ((∃ lat, (javaPing host port env).1 = .ok lat) ↔
      (∃ s2, readPacket s1 = .ok (.pong env.rand) s2)) ∧
    (∀ (q : Packet) (s2 : List Nat), readPacket s1 = .ok q s2 →
      q ≠ .pong env.rand →
      (javaPing host port env).1 = .err .invalidPacket) ∧
    (readPacket s1 = .err .invalidPacket →
      (javaPing host port env).1 = .err .invalidPacket) := by
  obtain ⟨hsB, hhs⟩ := framePacket_handshake_ok host port hhost
  have hred := javaPing_exchange host port env hsB resp s1 hhs hresp hjson
  refine ⟨⟨?_, ?_⟩, ?_, ?_⟩
  · rintro ⟨lat, hlat⟩
    rw [hred] at hlat
    rcases hq : readPacket s1 with ⟨q, s2⟩ | e | m
    · rw [hq] at hlat
      cases q with
      | pong payload =>
        by_cases hp : payload = env.rand
        · subst hp
          exact ⟨s2, rfl⟩
        · simp [hp] at hlat
      | handshake v ho po ns => simp at hlat
      | response r => simp at hlat
      | request => simp at hlat
      | ping p => simp at hlat
    · rw [hq] at hlat
      simp at hlat
    · rw [hq] at hlat
      simp at hlat
  · rintro ⟨s2, hq⟩
    refine ⟨((env.clock 1 - env.clock 0) / 1000000) % 2 ^ 64, ?_⟩
    rw [hred, hq]
    simp
  · intro q s2 hq hne
    rw [hred, hq]
    cases q with
    | pong payload =>
      have hp : ¬payload = env.rand := by
        intro hpp
        exact hne (by rw [hpp])
      simp [hp]
    | handshake v ho po ns => rfl
    | response r => rfl
    | request => rfl
    | ping p => rfl
  · intro hq
    rw [hred, hq]

/-- Witness for C9: a concrete stream carrying a `Response` frame and a
matching `Pong` frame, with random payload 5. -/
theorem c9_pong_gate_witness :
    (∃ lat,
      (javaPing [] 0
        ⟨[3, 0, 1, 0x78, 9, 1, 0, 0, 0, 0, 0, 0, 0, 5],
         fun _ => 0, 5, fun _ => true⟩).1 = .ok lat) :=
  (c9_pong_gate [] 0
    ⟨[3, 0, 1, 0x78, 9, 1, 0, 0, 0, 0, 0, 0, 0, 5],
     fun _ => 0, 5, fun _ => true⟩
    ['x'] [9, 1, 0, 0, 0, 0, 0, 0, 0, 5]
    (by norm_num) (by decide) rfl).1.mpr ⟨[], by decide⟩

/-- C4 fails as stated: the code captures `before = Instant::now()` only
AFTER `send_packet(Packet::Ping ...)` has returned.  On a concrete
successful call the trace places the Ping frame write at position 3 and
the first clock observation at position 4: no timestamp is taken before
the write, contradicting the claimed order. -/
theorem c4_counterexample :
    javaPing [] 0
        ⟨[3, 0, 1, 0x78, 9, 1, 0, 0, 0, 0, 0, 0, 0, 5],
         fun _ => 0, 5, fun _ => true⟩ =
      (.ok 0,
       [.send [6, 0, 47, 0, 0, 0, 1], .send [1, 0], .recv,
        .send [9, 1, 0, 0, 0, 0, 0, 0, 0, 5], .now 0, .recv, .now 0]) ∧
    framePacket (.ping 5) = .ok [9, 1, 0, 0, 0, 0, 0, 0, 0, 5] ∧
    (∀ e ∈ [JEvent.send [6, 0, 47, 0, 0, 0, 1], JEvent.send [1, 0],
        JEvent.recv, JEvent.send [9, 1, 0, 0, 0, 0, 0, 0, 0, 5]],
      e.isNow = false) := by
  refine ⟨by decide, rfl, by decide⟩

/-- C4 amended: in every successful Java ping call the timestamp `t0` is
captured immediately AFTER the Ping frame is written (no event lies
between the write and the capture), the Pong read follows, and the
reported latency is `(now() - t0)` in whole milliseconds (truncating
`u64` cast) computed from a second capture taken after the Pong is fully
read. -/
theorem c4_amended (host : List Nat) (port : Nat) (env : JEnv)
    (lat : Nat) (tr : List JEvent)
    (h : javaPing host port env = (.ok lat, tr)) :
    ∃ hsB reqB pingB,
      framePacket (.handshake 47 host port 1) = .ok hsB ∧
      framePacket .request = .ok reqB ∧
      framePacket (.ping env.rand) = .ok pingB ∧
      tr = [.send hsB, .send reqB, .recv, .send pingB,
            .now (env.clock 0), .recv, .now (env.clock 1)] ∧
      lat = ((env.clock 1 - env.clock 0) / 1000000) % 2 ^ 64 := by
  have hreq : framePacket .request = .ok [1, 0] := rfl
  rcases hhs : framePacket (.handshake 47 host port 1) with e | hsB
  · rw [javaPing] at h
    simp only [hhs] at h
    simp at h
  · rcases hrd : readPacket env.stream with ⟨p, s1⟩ | e | m
    · cases p with
      | response resp =>
        by_cases hjson : env.json resp = true
        · have hred := javaPing_exchange host port env hsB resp s1 hhs hrd hjson
          rw [hred] at h
          rcases hq : readPacket s1 with ⟨q, s2⟩ | e | m
          · rw [hq] at h
            cases q with
            | pong payload =>
              by_cases hp : payload = env.rand
              · subst hp
                simp at h
                obtain ⟨h1, h2⟩ := h
                refine ⟨hsB, [1, 0], [9, 1] ++ u64be env.rand, rfl, hreq,
                  framePacket_ping_ok env.rand, ?_, ?_⟩
                · exact h2.symm
                · omega
              · simp [hp] at h
            | handshake v ho po ns => simp at h
            | response r => simp at h
            | request => simp at h
            | ping pp => simp at h
          · rw [hq] at h
            simp at h
          · rw [hq] at h
            simp at h
        · rw [javaPing] at h
          simp only [hhs, hreq, hrd] at h
          rw [if_neg hjson] at h
          simp at h
      | handshake v ho po ns =>
        rw [javaPing] at h
        simp only [hhs, hreq, hrd] at h
        simp at h
      | pong payload =>
        rw [javaPing] at h
        simp only [hhs, hreq, hrd] at h
        simp at h
      | request =>
        rw [javaPing] at h
        simp only [hhs, hreq, hrd] at h
        simp at h
      | ping pp =>
        rw [javaPing] at h
        simp only [hhs, hreq, hrd] at h
        simp at h
    · rw [javaPing] at h
      simp only [hhs, hreq, hrd] at h
      simp at h
    · rw [javaPing] at h
      simp only [hhs, hreq, hrd] at h
      simp at h

/-- Witness for C4 amended at the concrete successful call. -/
theorem c4_amended_witness :
    ∃ hsB reqB pingB,
      framePacket (.handshake 47 [] 0 1) = .ok hsB ∧
      framePacket .request = .ok reqB ∧
      framePacket (.ping 5) = .ok pingB ∧
      [JEvent.send [6, 0, 47, 0, 0, 0, 1], JEvent.send [1, 0], JEvent.recv,
       JEvent.send [9, 1, 0, 0, 0, 0, 0, 0, 0, 5], JEvent.now 0, JEvent.recv,
       JEvent.now 0] =
        [JEvent.send hsB, JEvent.send reqB, JEvent.recv, JEvent.send pingB,
         JEvent.now 0, JEvent.recv, JEvent.now 0] ∧
      (0 : Nat) = ((0 - 0) / 1000000) % 2 ^ 64 := by
  have h := c4_amended [] 0
    ⟨[3, 0, 1, 0x78, 9, 1, 0, 0, 0, 0, 0, 0, 0, 5],
     fun _ => 0, 5, fun _ => true⟩ 0
    [JEvent.send [6, 0, 47, 0, 0, 0, 1], JEvent.send [1, 0], JEvent.recv,
     JEvent.send [9, 1, 0, 0, 0, 0, 0, 0, 0, 5], JEvent.now 0, JEvent.recv,
     JEvent.now 0] (by decide)
  exact h

end Mcping
